import Mathlib

/-!
Verification development for the Custom-Unix-Shell repository.

The definitions below are a shallow embedding of the two C source files:
`src/sh1.c` (the raw-mode shell with pipelines, logical operators, `!n`
recall and tab completion) and `src/unnamed/part_000` (the simpler variant
whose main loop implements the `history` builtin).  Strings typed by the
user are modelled as `List Char`; token sequences as `List String`; the
C `int` exit status as `Int`; fallible lookups as `Option`.  Process
creation is abstracted by an environment oracle `exitOf : List String → Int`
giving the actual exit status a spawned command would produce; the model
records which argument vectors are handed to `fork`/`execvp` so that
"which commands were executed" is observable.
-/

set_option linter.unusedVariables false

namespace CustomUnixShell

/-- A user-level string (a C `char *` buffer up to its terminator). -/
abbrev Str := List Char

/-! ## HistoryStore — src/sh1.c lines 55-80 -/

/-- The first step of `add_to_history` does
`if (len > 0 && command[len-1] == '\n') command[len-1] = '\0';`:
one trailing newline, if present, is cut off. -/
def trimNewline (s : Str) : Str :=
  if s.getLast? = some '\n' then s.dropLast else s

/-- Model of `add_to_history` (src/sh1.c lines 55-72), with the capacity
`MAX_HISTORY` (50 in the source) as a parameter `cap`.  After trimming a
trailing newline the command is dropped if empty; otherwise it is appended,
and when `history_count` has reached the capacity the entries are shifted
left by one (the oldest entry is freed) and the new entry takes the last
slot. -/
def add_to_history (cap : Nat) (hist : List Str) (command : Str) : List Str :=
  let c := trimNewline command
  if c = [] then hist
  else if hist.length < cap then hist ++ [c]
  else hist.drop 1 ++ [c]

/-- Model of `get_history_command` (src/sh1.c lines 75-80): returns `NULL` when
`index <= 0 || index > history_count`, else `history[index - 1]`. -/
def get_history_command (hist : List Str) (index : Int) : Option Str :=
  if index ≤ 0 ∨ (hist.length : Int) < index then none
  else hist[index.toNat - 1]?

/-- The history produced by a sequence of `add_to_history` calls starting
from the empty history (the state at shell startup). -/
def runHistory (cap : Nat) (cmds : List Str) : List Str :=
  cmds.foldl (add_to_history cap) []

/-- The logical sequence of entries a run of `add_to_history` calls tries
to keep: each command trimmed of one trailing newline, empty results
dropped. -/
def keptOf (cmds : List Str) : List Str :=
  (cmds.map trimNewline).filter (fun c => decide (c ≠ []))

/-! ## RedirectionResolver — src/sh1.c lines 118-198

`handle_redirection` scans the argument array left to right.  On one of
the operators `"<"`, `">>"`, `">"` it requires a following token (else it
reports a missing-target error and returns `-1`), opens that token as the
corresponding file, rebinds stdin/stdout by `dup2`, removes the two tokens
from the array, and rescans from the same index.  The embedding records
the file rebinding in a `RedirSpec` instead of performing the `open`
(open/`dup2` failures are environment-dependent IoErrors, outside this
parse-level model); a later operator occurrence overwrites an earlier one
exactly as a later `dup2` overrides an earlier one. -/

structure RedirSpec where
  inputPath : Option String
  outputPath : Option String
  append : Bool
deriving DecidableEq, Repr

def emptySpec : RedirSpec := RedirSpec.mk none none false

/-- The three redirection operator tokens recognised by the scanner. -/
def isRedirOp (t : String) : Bool :=
  t = "<" || t = ">" || t = ">>"

/-- The effect of one operator-filename pair on the recorded redirection:
`"<"` sets the input path, `">>"` the output path in append mode, `">"`
the output path in truncate mode (src/sh1.c lines 121-193). -/
def updateSpec (spec : RedirSpec) (t f : String) : RedirSpec :=
  if t = "<" then RedirSpec.mk (some f) spec.outputPath spec.append
  else if t = ">>" then RedirSpec.mk spec.inputPath (some f) true
  else RedirSpec.mk spec.inputPath (some f) false

/-- Model of `handle_redirection` (src/sh1.c lines 118-198) at the parse level:
`none` is the `-1` missing-target failure; `some (res, spec)` is success
with the residual argument array and the recorded redirections. -/
def handle_redirection : List String → RedirSpec → Option (List String × RedirSpec)
  | [], spec => some ([], spec)
  | t :: rest, spec =>
    if isRedirOp t then
      match rest with
      | [] => none
      | f :: rest' => handle_redirection rest' (updateSpec spec t f)
    else
      match handle_redirection rest spec with
      | none => none
      | some (res, s) => some (t :: res, s)

/-! ## PipelineBuilder — sh_execute_simple, src/sh1.c lines 212-338

The C function: returns `0` immediately on an empty argument array; strips
a trailing `"&"` (background flag); splits the array into segments at each
`"|"` token (by writing `NULL` over the pipe tokens); forks one child per
segment (one child total in the no-pipe case), wiring pipes between them;
then either waits for the children (`waitpid(pid, NULL, 0)` for a single
command, `wait(NULL)` in a loop for a pipeline — the exit statuses are
discarded in both cases) or prints the background notice.  Every return
statement of the function is `return 0;`.  The embedding therefore returns
the pair of the C return value (always `0`) and the list of argument
vectors handed to `fork`/`execvp`, and never consults the environment
oracle `exitOf` — which is precisely the defect recorded against claims
C1 and C2. -/

/-- Strip a trailing `"&"` token (src/sh1.c lines 217-224). -/
def stripBackground (args : List String) : List String × Bool :=
  if args.getLast? = some "&" then (args.dropLast, true) else (args, false)

/-- Prepend a token onto the first segment of a segment list. -/
def consHead (t : String) : List (List String) → List (List String)
  | [] => [[t]]
  | seg :: rest => (t :: seg) :: rest

/-- Split a token list at each `"|"` token, keeping empty segments,
as the `cmds[]` construction in src/sh1.c lines 255-270 does. -/
def splitPipes : List String → List (List String)
  | [] => [[]]
  | t :: ts => if t = "|" then [] :: splitPipes ts else consHead t (splitPipes ts)

/-- Model of `sh_execute_simple` (src/sh1.c lines 212-338): first component is the
C return value, second the argument vectors of the forked children. -/
def sh_execute_simple (exitOf : List String → Int) (args : List String) :
    Int × List (List String) :=
  if args = [] then (0, [])
  else (0, splitPipes (stripBackground args).1)

/-! ## LogicalSequencer — sh_execute_logical, src/sh1.c lines 342-368

The C loop: while `args[start] != NULL`, scan forward for the first `"&&"`
or `"||"` token; terminate the current segment there; run it through
`sh_execute_simple`; stop if there was no operator, or if the operator was
`"&&"` with a non-zero status, or `"||"` with a zero status; else resume
after the operator.  Returns the status of the last segment executed (the
initial `ret` is `0` when the loop body never runs).

The embedding first materialises the operator structure of the token list
(`toChain`: the list of (segment, following operator) pairs that the
in-place `NULL`-termination produces) and then runs the loop over it
(`runChain`).  The loop guard `args[start] != NULL` corresponds to the
chain element `([], none)`: it arises exactly when no tokens remain, and
there the C loop stops without executing anything, keeping `ret`. -/

/-- Prepend a token onto the first segment of a chain. -/
def chainCons (t : String) :
    List (List String × Option String) → List (List String × Option String)
  | [] => [([t], none)]
  | (seg, op) :: rest => (t :: seg, op) :: rest

/-- The segments of a token list as delimited by `"&&"`/`"||"` tokens,
each paired with the operator that follows it (`none` for the last). -/
def toChain : List String → List (List String × Option String)
  | [] => [([], none)]
  | t :: ts =>
    if t = "&&" ∨ t = "||" then ([], some t) :: toChain ts
    else chainCons t (toChain ts)

/-- The `sh_execute_logical` loop body over the materialised chain. -/
def runChain (exitOf : List String → Int) :
    List (List String × Option String) → Int → Int × List (List String)
  | [], ret => (ret, [])
  | (seg, op) :: rest, ret =>
    if seg = [] ∧ op = none then (ret, [])
    else
      let r := sh_execute_simple exitOf seg
      match op with
      | none => r
      | some o =>
        if (o = "&&" ∧ r.1 ≠ 0) ∨ (o = "||" ∧ r.1 = 0) then r
        else
          let r2 := runChain exitOf rest r.1
          (r2.1, r.2 ++ r2.2)

/-- Model of `sh_execute_logical` (src/sh1.c lines 342-368). -/
def sh_execute_logical (exitOf : List String → Int) (args : List String) :
    Int × List (List String) :=
  runChain exitOf (toChain args) 0

/-! ## LineEditor — sh_read_line, src/sh1.c lines 374-417

The read loop consumes one byte at a time.  A `'\r'`/`'\n'` terminates the
line (the buffer is null-terminated and returned); backspace (127 or 8)
removes the last buffered character if any; tab replaces the buffer with
the autocompleted buffer (abstracted here by the oracle `complete`, since
`autocomplete` reads the file system); any other byte is appended.  When
`read` returns 0 or less (end of input) the loop simply `break`s and the
buffer collected so far is returned — without writing the terminator and
without any distinguished end-of-input result.  The embedding returns the
collected characters together with the unconsumed input. -/

def sh_read_line (complete : Str → Str) : List Char → Str → Str × List Char
  | [], buf => (buf, [])
  | c :: rest, buf =>
    if c = '\r' ∨ c = '\n' then (buf, rest)
    else if c = Char.ofNat 127 ∨ c = Char.ofNat 8 then
      sh_read_line complete rest buf.dropLast
    else if c = '\t' then sh_read_line complete rest (complete buf)
    else sh_read_line complete rest (buf ++ [c])

/-! ## Shell loop history handling — sh_loop, src/sh1.c lines 482-514 -/

/-- Model of `atoi(&line[1])` as used in src/sh1.c line 494: at that call site the
first character is known to be a digit, so `atoi` accumulates the maximal
leading run of digits and stops at the first non-digit. -/
def atoiDigits : Str → Nat → Nat
  | c :: rest, acc =>
    if c.isDigit then atoiDigits rest (acc * 10 + (c.toNat - 48)) else acc
  | [], acc => acc

/-- The decimal value of a digit string, most significant digit first. -/
def decimalVal (ds : Str) : Nat :=
  ds.foldl (fun a c => a * 10 + (c.toNat - 48)) 0

/-- Whether src/sh1.c line 493 (`line[0] == '!' && isdigit(line[1])`)
fires on a line.  A line shorter than two characters cannot fire: for
`"!"` the C code reads the terminator `'\0'`, which is not a digit. -/
def triggersRecall : Str → Bool
  | b :: c :: _ => b = '!' && c.isDigit
  | _ => false

/-- The history-relevant effect of one `sh_loop` iteration on a line that
was read (src/sh1.c lines 493-509): `!`-recall substitution, then
`add_to_history`, then execution of the (possibly substituted) line.
Returns the new history and the line actually recorded and executed
(`none` when recall missed and the iteration `continue`d). -/
def sh_loop_step (cap : Nat) (hist : List Str) (line : Str) :
    List Str × Option Str :=
  match line with
  | b :: c :: rest =>
    if b = '!' ∧ c.isDigit then
      match get_history_command hist ((atoiDigits (c :: rest) 0 : Nat) : Int) with
      | none => (hist, none)
      | some cmd => (add_to_history cap hist cmd, some cmd)
    else (add_to_history cap hist (b :: c :: rest), some (b :: c :: rest))
  | l => (add_to_history cap hist l, some l)

/-! ## The part_000 variant's statement processing — src/unnamed/part_000

`main` (lines 461-482) trims each `';'`-separated statement of surrounding
whitespace, skips it if empty, prints the history without recording when
it equals `"history"`, and otherwise records it via `add_history` (which
trims a trailing newline and appends, unbounded). -/

/-- The characters of the builtin name `history`. -/
def historyCmd : Str := ['h', 'i', 's', 't', 'o', 'r', 'y']

def processStatement (hist : List Str) (stmt : Str) : List Str :=
  if stmt = [] then hist
  else if stmt = historyCmd then hist
  else hist ++ [trimNewline stmt]

/-- A concrete environment in which the command `false` exits with
status 1 and every other command with status 0. -/
def exitOf1 : List String → Int :=
  fun args => if args = ["false"] then 1 else 0

/-! ## Helper lemmas -/

/-- Every return statement of `sh_execute_simple` is `return 0;`. -/
theorem sh_execute_simple_fst (exitOf : List String → Int) (args : List String) :
    (sh_execute_simple exitOf args).1 = 0 := by
  by_cases h : args = [] <;> simp [sh_execute_simple, h]

/-- The status `runChain` returns is either `0` (from some segment's
`sh_execute_simple`) or the `ret` it was given. -/
theorem runChain_fst (exitOf : List String → Int) :
    ∀ (chain : List (List String × Option String)) (ret : Int),
      (runChain exitOf chain ret).1 = 0 ∨ (runChain exitOf chain ret).1 = ret := by
  intro chain
  induction chain with
  | nil => intro ret; right; rfl
  | cons hd tl ih =>
    intro ret
    obtain ⟨seg, op⟩ := hd
    by_cases hguard : seg = [] ∧ op = none
    · right; simp [runChain, hguard.1, hguard.2]
    · rw [runChain]
      rw [if_neg hguard]
      cases op with
      | none => left; exact sh_execute_simple_fst exitOf seg
      | some o =>
        simp only
        by_cases hstop :
            (o = "&&" ∧ (sh_execute_simple exitOf seg).1 ≠ 0) ∨
            (o = "||" ∧ (sh_execute_simple exitOf seg).1 = 0)
        · rw [if_pos hstop]; left; exact sh_execute_simple_fst exitOf seg
        · rw [if_neg hstop]
          rcases ih ((sh_execute_simple exitOf seg).1) with h0 | hr
          · left; exact h0
          · left; rw [hr]; exact sh_execute_simple_fst exitOf seg

/-- The function `sh_execute_logical` always returns status `0`: the initial `ret` is
`0` and every segment's `sh_execute_simple` returns `0`. -/
theorem sh_execute_logical_fst (exitOf : List String → Int) (args : List String) :
    (sh_execute_logical exitOf args).1 = 0 := by
  rcases runChain_fst exitOf (toChain args) 0 with h | h <;> exact h

/-- A token list without pipe tokens is a single segment. -/
theorem splitPipes_no_pipe (l : List String) (h : "|" ∉ l) :
    splitPipes l = [l] := by
  induction l with
  | nil => rfl
  | cons t ts ih =>
    have ht : t ≠ "|" := fun he => h (he ▸ List.mem_cons_self t ts)
    have hts : "|" ∉ ts := fun hm => h (List.mem_cons_of_mem t hm)
    simp [splitPipes, ht, ih hts, consHead]

/-- Splitting at the first pipe token peels off the pipe-free part. -/
theorem splitPipes_append (ts1 rest : List String) (h : "|" ∉ ts1) :
    splitPipes (ts1 ++ "|" :: rest) = ts1 :: splitPipes rest := by
  induction ts1 with
  | nil => simp [splitPipes]
  | cons t ts ih =>
    have ht : t ≠ "|" := fun he => h (he ▸ List.mem_cons_self t ts)
    have hts : "|" ∉ ts := fun hm => h (List.mem_cons_of_mem t hm)
    simp [splitPipes, ht, ih hts, consHead]

/-- The residual argument array a successful scan returns is a
subsequence of the original: surviving tokens keep their relative order
(the shifting loop in src/sh1.c lines 137-144 only deletes). -/
theorem handle_redirection_sublist :
    ∀ (args : List String) (spec : RedirSpec) (res : List String) (s : RedirSpec),
      handle_redirection args spec = some (res, s) → List.Sublist res args := by
  intro args spec
  induction args, spec using handle_redirection.induct
  case case1 spec =>
    intro res s h
    simp [handle_redirection] at h
    simp [h.1]
  case case2 t spec hop =>
    intro res s h
    simp [handle_redirection, hop] at h
  case case3 t spec hop f rest' ih =>
    intro res s h
    simp only [handle_redirection, hop, if_true] at h
    exact ((ih res s h).cons f).cons t
  case case4 t rest spec hop hnone ih =>
    intro res s h
    rw [handle_redirection.eq_def] at h
    simp [hop, hnone] at h
  case case5 t rest spec hop res0 s0 hsome ih =>
    intro res s h
    rw [handle_redirection.eq_def] at h
    simp [hop, hsome] at h
    rcases h with ⟨h1, h2⟩
    subst h1
    exact (ih res0 s0 hsome).cons₂ t

/-- A scan over an array containing no redirection operator changes
nothing: it returns the array itself and the spec it started from. -/
theorem handle_redirection_no_op :
    ∀ (args : List String) (spec : RedirSpec),
      (∀ t ∈ args, isRedirOp t = false) →
      handle_redirection args spec = some (args, spec) := by
  intro args
  induction args with
  | nil => intro spec _; rfl
  | cons t rest ih =>
    intro spec h
    have ht : isRedirOp t = false := h t (List.mem_cons_self t rest)
    have hrest : ∀ u ∈ rest, isRedirOp u = false :=
      fun u hu => h u (List.mem_cons_of_mem t hu)
    rw [handle_redirection.eq_def]
    simp [ht, ih spec hrest]

/-- When the scan fails, the operator it failed on is the last token of
the original array: tokens are only ever deleted to the left of the scan
position, so a token following the failing operator would have survived. -/
theorem handle_redirection_fail_last :
    ∀ (args : List String) (spec : RedirSpec),
      handle_redirection args spec = none →
      ∃ op, args.getLast? = some op ∧ isRedirOp op = true := by
  intro args spec
  induction args, spec using handle_redirection.induct
  case case1 spec =>
    intro h
    simp [handle_redirection] at h
  case case2 t spec hop =>
    intro _
    exact ⟨t, rfl, hop⟩
  case case3 t spec hop f rest' ih =>
    intro h
    simp only [handle_redirection, hop, if_true] at h
    obtain ⟨op, hlast, hisop⟩ := ih h
    refine ⟨op, ?_, hisop⟩
    cases rest' with
    | nil => simp [handle_redirection] at h
    | cons a l => rw [List.getLast?_cons_cons, List.getLast?_cons_cons]; exact hlast
  case case4 t rest spec hop hnone ih =>
    intro _
    obtain ⟨op, hlast, hisop⟩ := ih hnone
    refine ⟨op, ?_, hisop⟩
    cases rest with
    | nil => simp [handle_redirection] at hnone
    | cons a l => rw [List.getLast?_cons_cons]; exact hlast
  case case5 t rest spec hop res0 s0 hsome ih =>
    intro h
    rw [handle_redirection.eq_def] at h
    simp [hop, hsome] at h

/-- An operator whose preceding tokens are all ordinary words and which
has nothing after it makes the scan fail with the missing-target error. -/
theorem handle_redirection_trailing_op :
    ∀ (args : List String) (op : String) (spec : RedirSpec),
      isRedirOp op = true →
      (∀ t ∈ args, isRedirOp t = false) →
      handle_redirection (args ++ [op]) spec = none := by
  intro args
  induction args with
  | nil =>
    intro op spec hop _
    rw [handle_redirection.eq_def]
    simp [hop]
  | cons t rest ih =>
    intro op spec hop h
    have ht : isRedirOp t = false := h t (List.mem_cons_self t rest)
    have hrest : ∀ u ∈ rest, isRedirOp u = false :=
      fun u hu => h u (List.mem_cons_of_mem t hu)
    rw [List.cons_append, handle_redirection.eq_def]
    simp [ht, ih op spec hop hrest]

/-- Unfolding `keptOf` over one more recorded command. -/
theorem keptOf_cons (cmd : Str) (cmds : List Str) :
    keptOf (cmd :: cmds) =
      if trimNewline cmd = [] then keptOf cmds
      else trimNewline cmd :: keptOf cmds := by
  by_cases hc : trimNewline cmd = [] <;> simp [keptOf, hc]

/-- Running `add_to_history` over any command sequence from a history that
fits the capacity keeps exactly the newest capacity-many of the retained
(trimmed, non-empty) entries, oldest first. -/
theorem foldl_add_to_history (cap : Nat) (hcap : 0 < cap) :
    ∀ (cmds hist : List Str), hist.length ≤ cap →
      List.foldl (add_to_history cap) hist cmds
        = (hist ++ keptOf cmds).drop ((hist ++ keptOf cmds).length - cap) := by
  intro cmds
  induction cmds with
  | nil =>
    intro hist hlen
    have h0 : hist.length - cap = 0 := Nat.sub_eq_zero_of_le hlen
    simp [keptOf, h0]
  | cons cmd cmds ih =>
    intro hist hlen
    rw [List.foldl_cons, keptOf_cons]
    by_cases hc : trimNewline cmd = []
    · have hstep : add_to_history cap hist cmd = hist := by
        simp [add_to_history, hc]
      rw [hstep, if_pos hc]
      exact ih hist hlen
    · rw [if_neg hc]
      by_cases hlt : hist.length < cap
      · have hstep : add_to_history cap hist cmd = hist ++ [trimNewline cmd] := by
          simp [add_to_history, hc, hlt]
        have h2 : (hist ++ [trimNewline cmd]).length ≤ cap := by
          simp only [List.length_append, List.length_singleton]
          omega
        rw [hstep, ih _ h2, List.append_assoc]
        rfl
      · have heq : hist.length = cap := Nat.le_antisymm hlen (Nat.not_lt.mp hlt)
        have hne : 1 ≤ hist.length := by omega
        have hstep : add_to_history cap hist cmd = hist.drop 1 ++ [trimNewline cmd] := by
          simp [add_to_history, hc, hlt]
        have h2 : (hist.drop 1 ++ [trimNewline cmd]).length ≤ cap := by
          simp only [List.length_append, List.length_drop, List.length_singleton]
          omega
        rw [hstep, ih _ h2]
        have hL1 : ((hist.drop 1 ++ [trimNewline cmd]) ++ keptOf cmds).length - cap
            = (keptOf cmds).length := by
          simp only [List.length_append, List.length_drop, List.length_singleton]
          omega
        have hL2 : (hist ++ trimNewline cmd :: keptOf cmds).length - cap
            = (keptOf cmds).length + 1 := by
          simp only [List.length_append, List.length_cons]
          omega
        rw [hL1, hL2, Nat.add_comm (keptOf cmds).length 1]
        rw [← List.drop_drop (keptOf cmds).length 1 (hist ++ trimNewline cmd :: keptOf cmds)]
        rw [List.drop_append_of_le_length hne, List.append_assoc]
        rfl

/-- Applying `atoi` to a string, as coded in `atoiDigits`, accumulates exactly the
maximal leading digit run and ignores everything after it. -/
theorem atoiDigits_takeWhile :
    ∀ (s : Str) (acc : Nat),
      atoiDigits s acc
        = (s.takeWhile Char.isDigit).foldl (fun a c => a * 10 + (c.toNat - 48)) acc := by
  intro s
  induction s with
  | nil => intro acc; rfl
  | cons c rest ih =>
    intro acc
    by_cases hd : c.isDigit <;> simp [atoiDigits, List.takeWhile_cons, hd, ih]

/-- An in-range recall index always finds an entry. -/
theorem get_history_command_in_range (hist : List Str) (m : Int)
    (h1 : 0 < m) (h2 : m ≤ (hist.length : Int)) :
    ∃ e, get_history_command hist m = some e ∧ hist[m.toNat - 1]? = some e := by
  have hb : m.toNat - 1 < hist.length := by omega
  refine ⟨hist[m.toNat - 1], ?_, List.getElem?_eq_getElem hb⟩
  unfold get_history_command
  rw [if_neg (by omega)]
  exact List.getElem?_eq_getElem hb

/-! ## Claims C3 and C4 -/

/-- Claim C3 counterexample: the claim predicts that with capacity 2,
after recording `"a"`, `"b"`, `"c"`, `recall(1)` is not-found (entry 1 of
the ever-recorded sequence was evicted) and `recall(3)` returns `"c"`
(entry 3 of the ever-recorded sequence).  The code indexes the resident
array instead: `recall(1)` returns `"b"` and `recall(3)` is out of range
(`history_count` is 2), hence not-found. -/
theorem recall_counts_residents_cex :
    get_history_command (runHistory 2 [['a'], ['b'], ['c']]) 1 = some ['b']
    ∧ get_history_command (runHistory 2 [['a'], ['b'], ['c']]) 3 = none := by
  exact ⟨rfl, rfl⟩

/-- Claim C3 (amended): `recall(n)` is a 1-based index into the resident
entries (oldest resident first), not into the logical sequence of all
entries ever recorded: it is not-found exactly when `n ≤ 0` or `n`
exceeds the resident count, and otherwise returns the nth resident.  With
capacity 2, after recording `"a"`, `"b"`, `"c"`, `recall(1)` returns
`"b"` and `recall(3)` is not-found. -/
theorem recall_indexes_residents (hist : List Str) (n : Int) :
    (get_history_command hist n = none ↔ n ≤ 0 ∨ (hist.length : Int) < n)
    ∧ (0 < n → n ≤ (hist.length : Int) →
        ∃ e, get_history_command hist n = some e ∧ hist[n.toNat - 1]? = some e)
    ∧ get_history_command (runHistory 2 [['a'], ['b'], ['c']]) 1 = some ['b']
    ∧ get_history_command (runHistory 2 [['a'], ['b'], ['c']]) 3 = none := by
  refine ⟨⟨?_, ?_⟩, get_history_command_in_range hist n, rfl, rfl⟩
  · intro h
    by_contra hcond
    have h1 : 0 < n := by omega
    have h2 : n ≤ (hist.length : Int) := by omega
    obtain ⟨e, he, _⟩ := get_history_command_in_range hist n h1 h2
    rw [he] at h
    exact Option.noConfusion h
  · intro h
    unfold get_history_command
    rw [if_pos h]

/-- Witness for the amended C3 theorem at a concrete history and index. -/
theorem recall_indexes_residents_witness :
    ∃ e, get_history_command [['l', 's']] 1 = some e
      ∧ [['l', 's']][(1 : Int).toNat - 1]? = some e :=
  ((recall_indexes_residents [['l', 's']] 1).2.1 (by decide) (by decide))

/-- Claim C4: `record` trims one trailing newline, drops the line if the
result is empty, otherwise appends it, evicting exactly the oldest entry
when the history already holds 50 entries; consequently, starting from the
empty history, after any sequence of records the history is exactly the
newest at-most-50 of the retained entries in insertion order, so it never
holds more than 50 entries. -/
theorem record_ring_buffer (hist : List Str) (cmd : Str) (cmds : List Str) :
    (trimNewline cmd = [] → add_to_history 50 hist cmd = hist)
    ∧ (trimNewline cmd ≠ [] → hist.length < 50 →
        add_to_history 50 hist cmd = hist ++ [trimNewline cmd])
    ∧ (trimNewline cmd ≠ [] → hist.length = 50 →
        add_to_history 50 hist cmd = hist.drop 1 ++ [trimNewline cmd])
    ∧ runHistory 50 cmds = (keptOf cmds).drop ((keptOf cmds).length - 50)
    ∧ (runHistory 50 cmds).length ≤ 50 := by
  have hrun : runHistory 50 cmds = (keptOf cmds).drop ((keptOf cmds).length - 50) := by
    have h := foldl_add_to_history 50 (by norm_num) cmds [] (by simp)
    simpa [runHistory] using h
  refine ⟨?_, ?_, ?_, hrun, ?_⟩
  · intro hc; simp [add_to_history, hc]
  · intro hc hlt; simp [add_to_history, hc, hlt]
  · intro hc heq
    have hlt : ¬ hist.length < 50 := by omega
    simp [add_to_history, hc, hlt]
  · rw [hrun, List.length_drop]
    omega

/-- Witness for C4: a plain append below capacity and an eviction at
capacity, at concrete inputs. -/
theorem record_ring_buffer_witness :
    add_to_history 50 [] ['a'] = [] ++ [trimNewline ['a']]
    ∧ add_to_history 50 (List.replicate 50 ['x']) ['b']
        = (List.replicate 50 ['x']).drop 1 ++ [trimNewline ['b']] :=
  ⟨(record_ring_buffer [] ['a'] []).2.1 (by decide) (by decide),
   (record_ring_buffer (List.replicate 50 ['x']) ['b'] []).2.2.1 (by decide) (by simp)⟩

/-! ## Claims C1, C2, C5, C6 -/

/-- Claim C1 (code defect): the claim says the status returned by the
pipeline executor equals the exit status of the pipeline's last segment,
non-zero when the last command fails.  `sh_execute_simple` discards every
child's exit status (`waitpid(pid, NULL, 0)`, `wait(NULL)`) and each of
its return statements is `return 0;`, so for every environment and every
argument array it returns 0; in an environment where `false` exits 1, the
foreground pipeline `false` still yields status 0. -/
theorem pipeline_executor_returns_zero :
    (∀ (exitOf : List String → Int) (args : List String),
        (sh_execute_simple exitOf args).1 = 0)
    ∧ (sh_execute_simple exitOf1 ["false"]).1 ≠ exitOf1 ["false"] := by
  refine ⟨sh_execute_simple_fst, ?_⟩
  decide

/-- Claim C2 (code defect): on `false && echo X`, in an environment where
`false` exits 1, the claim says `echo X` is not executed and the final
status is non-success.  Because `sh_execute_simple` reports 0 for every
pipeline, `sh_execute_logical` sees the `&&` guard satisfied, forks both
`false` and `echo X`, and returns final status 0 (success). -/
theorem false_and_echo_executes_echo :
    (sh_execute_logical exitOf1 ["false", "&&", "echo", "X"]).2
        = [["false"], ["echo", "X"]]
    ∧ (sh_execute_logical exitOf1 ["false", "&&", "echo", "X"]).1 = 0
    ∧ exitOf1 ["false"] = 1 := by
  exact ⟨rfl, rfl, rfl⟩

/-- Claim C5 (code defect): the claim says a zero-byte read yields a
distinguished no-more-input result, the session ends, and the process
exits 0.  In the code, end of input merely breaks the read loop: the
result of `sh_read_line` on exhausted input is indistinguishable from the
result for an empty newline-terminated line (and the C buffer is returned
without its terminator even being written), and the `sh_loop` guard
`status >= 0` can never become false because `sh_execute_logical` always
returns 0 — so the session never terminates and `main`'s `return
EXIT_SUCCESS` is unreachable. -/
theorem eof_has_no_sentinel_and_loop_guard_holds :
    (∀ complete : Str → Str,
        sh_read_line complete [] [] = ([], [])
        ∧ sh_read_line complete ['\n'] [] = ([], []))
    ∧ (∀ (exitOf : List String → Int) (args : List String),
        (sh_execute_logical exitOf args).1 = 0) := by
  refine ⟨fun complete => ⟨rfl, ?_⟩, sh_execute_logical_fst⟩
  simp [sh_read_line]

/-- Claim C6 counterexample: the claim says a pipeline with two
consecutive pipes fails with a ParseError and no segment is executed.
For `ls | | wc` the code performs no validation: it forks a child for all
three segments, including the empty middle one, so `ls` and `wc` are
executed. -/
theorem empty_segment_still_spawned_cex :
    (sh_execute_simple exitOf1 ["ls", "|", "|", "wc"]).2 = [["ls"], [], ["wc"]]
    ∧ (sh_execute_simple exitOf1 ["ls", "|", "|", "wc"]).2 ≠ [] := by
  exact ⟨rfl, by decide⟩

/-- Claim C6 (amended): pipeline construction never fails — there is no
ParseError path in `sh_execute_simple`.  A leading, trailing or doubled
pipe simply produces an empty segment, and a child is forked for every
segment including the empty ones (an empty segment's child merely fails
at `execvp` time); in particular, for any doubled pipe between pipe-free
segments all the segments are spawned. -/
theorem pipes_never_parse_checked (exitOf : List String → Int)
    (ts1 ts2 : List String) (h1 : "|" ∉ ts1) (h2 : "|" ∉ ts2)
    (h3 : (ts1 ++ "|" :: "|" :: ts2).getLast? ≠ some "&") :
    (sh_execute_simple exitOf (ts1 ++ "|" :: "|" :: ts2)).2 = [ts1, [], ts2] := by
  have hne : ts1 ++ "|" :: "|" :: ts2 ≠ [] := by simp
  have hstrip : stripBackground (ts1 ++ "|" :: "|" :: ts2)
      = (ts1 ++ "|" :: "|" :: ts2, false) := by
    unfold stripBackground
    rw [if_neg h3]
  rw [sh_execute_simple, if_neg hne, hstrip]
  rw [splitPipes_append ts1 ("|" :: ts2) h1]
  rw [show splitPipes ("|" :: ts2) = [] :: splitPipes ts2 from by simp [splitPipes]]
  rw [splitPipes_no_pipe ts2 h2]

/-- Witness for the amended C6 theorem at a concrete doubled-pipe line. -/
theorem pipes_never_parse_checked_witness :
    (sh_execute_simple (fun _ => 0)
        (["cat", "f"] ++ "|" :: "|" :: ["wc", "-l"])).2
      = [["cat", "f"], [], ["wc", "-l"]] :=
  pipes_never_parse_checked (fun _ => 0) ["cat", "f"] ["wc", "-l"]
    (by decide) (by decide) (by decide)

/-! ## Claims C7 and C8 -/

/-- Claim C7 counterexample: in the segment `> >` the last token is a
redirection operator, yet resolution does not fail with the missing-target
error: the scanner consumes the second `>` as the filename of the first,
succeeding with an output file literally named `>`. -/
theorem trailing_op_as_filename_cex :
    ([">", ">"] : List String).getLast? = some ">"
    ∧ isRedirOp ">" = true
    ∧ handle_redirection [">", ">"] emptySpec
        = some ([], RedirSpec.mk none (some ">") false) := by
  exact ⟨rfl, rfl, rfl⟩

/-- Claim C7 (amended): resolution fails with the missing-target error
exactly when the left-to-right scan — which consumes the token after each
operator as that operator's filename — reaches an operator with no token
after it.  Failure therefore implies that the segment's last token is an
operator (and a trailing operator not preceded by any other operator does
fail), but the converse does not hold, since a trailing operator can be
consumed as the filename of the operator before it.  On failure the child
exits before `execvp`, so the command is not executed. -/
theorem redir_fail_characterization :
    (∀ args : List String, handle_redirection args emptySpec = none →
        ∃ op, args.getLast? = some op ∧ isRedirOp op = true)
    ∧ (∀ (args : List String) (op : String), isRedirOp op = true →
        (∀ t ∈ args, isRedirOp t = false) →
        handle_redirection (args ++ [op]) emptySpec = none) :=
  ⟨fun args h => handle_redirection_fail_last args emptySpec h,
   fun args op hop h => handle_redirection_trailing_op args op emptySpec hop h⟩

/-- Witness for the amended C7 theorem at concrete segments. -/
theorem redir_fail_characterization_witness :
    (∃ op, (["cat", "<"] : List String).getLast? = some op ∧ isRedirOp op = true)
    ∧ handle_redirection (["cat"] ++ ["<"]) emptySpec = none :=
  ⟨redir_fail_characterization.1 ["cat", "<"] (by decide),
   redir_fail_characterization.2 ["cat"] "<" (by decide) (by decide)⟩

/-- Claim C8: a token sequence containing no redirection operator passes
through resolution unchanged, with the empty RedirectionSpec; and in
general the residual arguments of a successful resolution are a
subsequence of the original tokens, so the relative order of surviving
non-operator tokens is preserved. -/
theorem redirection_preserves_args :
    (∀ args : List String, (∀ t ∈ args, isRedirOp t = false) →
        handle_redirection args emptySpec = some (args, emptySpec))
    ∧ (∀ (args res : List String) (spec s : RedirSpec),
        handle_redirection args spec = some (res, s) → List.Sublist res args) :=
  ⟨fun args h => handle_redirection_no_op args emptySpec h,
   fun args res spec s h => handle_redirection_sublist args spec res s h⟩

/-- Witness for C8: the operator-free segment `echo hi` is returned
unchanged, and the residual of `echo < f` is a subsequence of it. -/
theorem redirection_preserves_args_witness :
    handle_redirection ["echo", "hi"] emptySpec = some (["echo", "hi"], emptySpec)
    ∧ List.Sublist ["echo"] ["echo", "<", "f"] :=
  ⟨redirection_preserves_args.1 ["echo", "hi"] (by decide),
   redirection_preserves_args.2 ["echo", "<", "f"] ["echo"] emptySpec
     (RedirSpec.mk (some "f") none false) (by decide)⟩

/-! ## Claims C9 and C10 -/

/-- Claim C9 counterexample: in `src/sh1.c` there is no `history` builtin
and `sh_loop` calls `add_to_history` on every line that survives `!`
substitution, so processing the line `history` from an empty history
records it — the history is not unchanged. -/
theorem history_line_recorded_cex :
    (sh_loop_step 50 [] historyCmd).1 = [historyCmd]
    ∧ (sh_loop_step 50 [] historyCmd).1 ≠ [] := by
  exact ⟨rfl, by decide⟩

/-- Claim C9 (amended): only the `src/unnamed/part_000` variant has a
`history` builtin; there, a `;`-separated statement equal to `history`
prints the history without being recorded, leaving the history contents
unchanged.  In `src/sh1.c`, which has no such builtin, the line `history`
is recorded like any other non-empty line. -/
theorem history_builtin_not_recorded (hist : List Str) :
    processStatement hist historyCmd = hist
    ∧ (sh_loop_step 50 hist historyCmd).1 = add_to_history 50 hist historyCmd := by
  constructor
  · have h1 : historyCmd ≠ ([] : Str) := by decide
    simp [processStatement, h1]
  · have hb : ¬(('h' : Char) = '!' ∧ ('i' : Char).isDigit = true) := by decide
    simp only [historyCmd, sh_loop_step, if_neg hb]

/-- Claim C10: the recall branch of `sh_loop` fires exactly when the
line's first character is `!` and its second is a digit; any other line —
including one starting with `!` followed by a non-digit — is recorded and
executed literally.  When recall fires, the index is the value of the
maximal digit run after the `!` (the rest of the line is ignored by
`atoi`), and a successful lookup replaces the whole line by the recalled
entry, which is what gets recorded and executed; a failed lookup records
and executes nothing. -/
theorem bang_recall_characterization (hist : List Str) (line : Str) :
    (triggersRecall line = false →
        sh_loop_step 50 hist line = (add_to_history 50 hist line, some line))
    ∧ (∀ (c : Char) (rest : Str), line = '!' :: c :: rest → c.isDigit = true →
        ((get_history_command hist ((atoiDigits (c :: rest) 0 : Nat) : Int) = none →
            sh_loop_step 50 hist line = (hist, none))
         ∧ (∀ cmd,
              get_history_command hist ((atoiDigits (c :: rest) 0 : Nat) : Int)
                = some cmd →
              sh_loop_step 50 hist line = (add_to_history 50 hist cmd, some cmd))
         ∧ atoiDigits (c :: rest) 0
            = decimalVal ((c :: rest).takeWhile Char.isDigit))) := by
  constructor
  · intro htrig
    match line with
    | [] => rfl
    | [b] => rfl
    | b :: c :: rest =>
      have h2 : ¬(b = '!' ∧ c.isDigit = true) := by
        rintro ⟨hb, hd⟩
        simp [triggersRecall, hb, hd] at htrig
      simp only [sh_loop_step, if_neg h2]
  · intro c rest hline hd
    subst hline
    have hcond : ('!' : Char) = '!' ∧ c.isDigit = true := ⟨rfl, hd⟩
    refine ⟨?_, ?_, ?_⟩
    · intro hm
      simp [sh_loop_step, hm, hd]
    · intro cmd hcmd
      simp [sh_loop_step, hcmd, hd]
    · rw [atoiDigits_takeWhile]
      rfl

/-- Witness for C10: with resident history `["ls"]`, the line `!1`
recalls `ls`, records it, and executes it. -/
theorem bang_recall_characterization_witness :
    sh_loop_step 50 [['l', 's']] ['!', '1']
      = (add_to_history 50 [['l', 's']] ['l', 's'], some ['l', 's']) :=
  ((bang_recall_characterization [['l', 's']] ['!', '1']).2 '1' [] rfl
      (by decide)).2.1 ['l', 's'] (by decide)

end CustomUnixShell
